import Mathlib

/-!
Verification development for the incremental caching layer of the
`broccoli-compile-modules` build stage (`src/index.js`).

The embedding models:
* the in-memory cache `this.cache` (a JS object mapping a relative file
  path to `{hash, content}`) as an association list;
* the source directory as an association list from relative path to a
  record holding the `hashStats(fs.statSync(...))` fingerprint (absent
  when the file vanished between glob enumeration and the stat call,
  which is the `NotFoundError` case of the spec) and the file bytes;
* the destination directory as an association list from destDir-relative
  path to bytes;
* the per-file planning loop (`write`, lines 144-164), the bulk
  transform invocation (`container.write`, line 167) and the read-back
  reconciliation (lines 170-174) as one pure pass function threading
  these states, returning the final cache, destination, the replay /
  recompute classification (the two branches of the loop) and an
  optional abort error.

External collaborators (the glob resolver `helpers.multiGlob`, the
`es6-module-transpiler` container, the formatter table, and
`helpers.assertAbsolutePaths`) are not part of this repository; they are
modelled from the spec's description of their interfaces: the transform
is an arbitrary function parameter writing outputs under the output
root, the glob resolver is a literal/`?`/`*`/`**` matcher that returns
de-duplicated matches, and path joining is string concatenation with a
separator on destDir-relative paths (the absolute `output` option
turns, via `path.join(destDir, output)`, into the destDir-relative
subpath used here; `""` for output `/`).
-/

namespace BroccoliCompileModules

/-- Entry of `this.cache`: the JS object `{hash, content}` where `content`
is absent (`undefined`) until the reconciliation step first sets it. -/
structure CacheEntry where
  hash : Nat
  content : Option String
deriving DecidableEq, Repr

/-- Model of `this.cache`, a JS object used as a string-keyed map. -/
abbrev Cache := List (String × CacheEntry)

/-- State of one source file: the fingerprint `hashStats(fs.statSync(...))`
would return (`none` when the stat throws because the file vanished after
enumeration), and the file bytes. -/
structure SrcFile where
  fingerprint : Option Nat
  content : String
deriving DecidableEq, Repr

/-- Model of the source directory: relative path to file state. -/
abbrev SrcFS := List (String × SrcFile)

/-- Model of the destination directory: destDir-relative path to bytes. -/
abbrev Dest := List (String × String)

/-- Lookup in a string-keyed association list (JS property read). -/
def alistFind {β : Type} : List (String × β) → String → Option β
  | [], _ => none
  | (k, v) :: rest, f => if k = f then some v else alistFind rest f

/-- Update-or-append in a string-keyed association list (JS property write:
replaces the binding in place when present, appends otherwise). -/
def alistSet {β : Type} : List (String × β) → String → β → List (String × β)
  | [], f, v => [(f, v)]
  | (k, v0) :: rest, f, v => if k = f then (f, v) :: rest else (k, v0) :: alistSet rest f v

/-- Fingerprint computation `helpers.hashStats(fs.statSync(path.join(srcDir,
filepath)))`: `none` models the stat throwing `NotFoundError`. -/
def statFingerprint (src : SrcFS) (filepath : String) : Option Nat :=
  (alistFind src filepath).bind SrcFile.fingerprint

/-- Bytes actually written by `fs.writeFileSync(dest, cache.content, ...)`:
when `content` is absent, Node coerces `undefined` to the string
`"undefined"`. -/
def contentBytes : Option String → String
  | some s => s
  | none => "undefined"

/-- Path join on destDir-relative paths, modelling
`path.join(destDir, output, filepath)` relative to `destDir`. -/
def joinPath (output filepath : String) : String :=
  if output = "" then filepath else output ++ "/" ++ filepath

/-- Fuel-driven glob matcher: literal characters, `?` (one non-separator
character), `*` (any run of non-separator characters), `**` (any run of
characters). Models the external glob resolver's pattern language. -/
def globMatchAux : Nat → List Char → List Char → Bool
  | 0, _, _ => false
  | _ + 1, [], s => s.isEmpty
  | fuel + 1, '*' :: '*' :: ps, s =>
      globMatchAux fuel ps s ||
        (match s with
         | [] => false
         | _ :: t => globMatchAux fuel ('*' :: '*' :: ps) t)
  | fuel + 1, '*' :: ps, s =>
      globMatchAux fuel ps s ||
        (match s with
         | [] => false
         | c :: t => c ≠ '/' && globMatchAux fuel ('*' :: ps) t)
  | fuel + 1, '?' :: ps, s =>
      (match s with
       | [] => false
       | c :: t => c ≠ '/' && globMatchAux fuel ps t)
  | fuel + 1, c :: ps, s =>
      (match s with
       | [] => false
       | d :: t => c = d && globMatchAux fuel ps t)

/-- Glob match of one pattern against one relative path. -/
def globMatch (pat p : String) : Bool :=
  globMatchAux (pat.length + p.length + 1) pat.data p.data

/-- A path matches some pattern of the list. -/
def matchesAny (pats : List String) (p : String) : Bool :=
  pats.any (fun pat => globMatch pat p)

/-- De-duplication keeping the first occurrence (the `pathSet` of the
external `multiGlob` helper). -/
def dedupAcc : List String → List String → List String
  | _, [] => []
  | seen, p :: ps => if p ∈ seen then dedupAcc seen ps else p :: dedupAcc (p :: seen) ps

/-- Model of `helpers.multiGlob(patterns, cwd)`: per pattern, the paths of
the directory matching it, concatenated and de-duplicated. -/
def multiGlob (pats : List String) (paths : List String) : List String :=
  dedupAcc [] ((pats.map (fun pat => paths.filter (fun p => globMatch pat p))).flatten)

/-- Errors aborting a pass: the stat throwing (`NotFoundError`), the
read-back indexing a missing cache entry (`TypeError` on
`this.cache[filepath].content = ...`), or `fs.readFileSync` throwing on a
missing output file. -/
inductive PassError where
  | notFound (filepath : String)
  | missingEntry (filepath : String)
  | readMissing (filepath : String)
deriving DecidableEq, Repr

/-- State threaded through the planning loop: the cache, the destination
writes so far, and the classification observables — `replay` records files
that took the cached-write branch, `recompute` records files passed to
`container.getModule`. -/
structure LoopState where
  cache : Cache
  dest : Dest
  replay : List String
  recompute : List String
deriving DecidableEq, Repr

/-- Planning loop of `write` (src/index.js lines 144-164): per input file,
look up the cache entry, stat the file, then either replay the cached
bytes to the destination (equal fingerprint), refresh the stored
fingerprint and mark for recompute (different fingerprint), or insert a
fresh no-content entry and mark for recompute (no entry). A failing stat
aborts the loop, keeping the state already accumulated. -/
def planLoop (output : String) (src : SrcFS) : List String → LoopState → LoopState × Option PassError
  | [], st => (st, none)
  | f :: fs, st =>
    match statFingerprint src f with
    | none => (st, some (PassError.notFound f))
    | some h =>
      match alistFind st.cache f with
      | some e =>
        if e.hash = h then
          planLoop output src fs
            { st with
              dest := alistSet st.dest (joinPath output f) (contentBytes e.content)
              replay := st.replay ++ [f] }
        else
          planLoop output src fs
            { st with
              cache := alistSet st.cache f { hash := h, content := e.content }
              recompute := st.recompute ++ [f] }
      | none =>
        planLoop output src fs
          { st with
            cache := alistSet st.cache f { hash := h, content := none }
            recompute := st.recompute ++ [f] }

/-- Writes of the transform invoker under the output root
(`container.write(path.join(destDir, this.output))`). -/
def writeAll (output : String) (outs : List (String × String)) (d : Dest) : Dest :=
  outs.foldl (fun d pc => alistSet d (joinPath output pc.1) pc.2) d

/-- Reconciliation loop (src/index.js lines 172-174): for each glob-matched
output path, `this.cache[filepath].content = fs.readFileSync(path.join(outputPath,
filepath))`. Indexing a missing entry or reading a missing file aborts,
keeping the content already set; the returned list records the identities
whose content was set. -/
def reconcile (output : String) (dest : Dest) : List String → Cache → Cache × List String × Option PassError
  | [], c => (c, [], none)
  | p :: ps, c =>
    match alistFind c p with
    | none => (c, [], some (PassError.missingEntry p))
    | some e =>
      match alistFind dest (joinPath output p) with
      | none => (c, [], some (PassError.readMissing p))
      | some bytes =>
        let rest := reconcile output dest ps (alistSet c p { hash := e.hash, content := some bytes })
        (rest.1, p :: rest.2.1, rest.2.2)

/-- Outcome of one pass: final cache and destination, the classification,
the read-back glob result, the identities whose content the reconciler
set, how many times the transform invoker was called, and the abort
error if any. -/
structure WriteResult where
  cache : Cache
  dest : Dest
  replay : List String
  recompute : List String
  outputFiles : List String
  contentSet : List String
  invokerCalls : Nat
  error : Option PassError
deriving DecidableEq, Repr

/-- One pass of `CompileModules.prototype.write` (src/index.js lines
121-177): enumerate input files by globbing the patterns over the source
directory, run the planning loop, invoke the transform once on the
recompute set (its outputs written under the output root, over a fresh
destination directory the host build system provides), glob the patterns
over the destination and reconcile the cache from the files matched.
`transform` is the external `es6-module-transpiler` container, a function
of the source state and the recompute list. -/
def writePass (transform : SrcFS → List String → List (String × String))
    (output : String) (patterns : List String) (src : SrcFS) (cache0 : Cache) : WriteResult :=
  let inputFiles := multiGlob patterns (src.map Prod.fst)
  let r := planLoop output src inputFiles ⟨cache0, [], [], []⟩
  match r.2 with
  | some e =>
    { cache := r.1.cache, dest := r.1.dest, replay := r.1.replay
      recompute := r.1.recompute, outputFiles := [], contentSet := []
      invokerCalls := 0, error := some e }
  | none =>
    let dest1 := writeAll output (transform src r.1.recompute) r.1.dest
    let outputFiles := multiGlob patterns (dest1.map Prod.fst)
    let rec1 := reconcile output dest1 outputFiles r.1.cache
    { cache := rec1.1, dest := dest1, replay := r.1.replay
      recompute := r.1.recompute, outputFiles := outputFiles, contentSet := rec1.2.1
      invokerCalls := 1, error := rec1.2.2 }

/-! Constructor and configuration model (src/index.js lines 21-112). -/

/-- Shallow model of the JavaScript values the constructor inspects (the
payloads it never looks at are elided). -/
inductive JSValue where
  | undefinedV
  | nullV
  | boolV (b : Bool)
  | numV (n : Int)
  | strV (s : String)
  | arrayV (len : Nat)
  | objectV
  | funcV
deriving DecidableEq, Repr

/-- JavaScript truthiness, as tested by `if (!formatter)`. -/
def truthy : JSValue → Bool
  | .undefinedV => false
  | .nullV => false
  | .boolV b => b
  | .numV n => !(n == 0)
  | .strV s => !(s == "")
  | .arrayV _ => true
  | .objectV => true
  | .funcV => true

/-- The `typeof` operator (arrays and `null` are `"object"` in JS). -/
def jsTypeof : JSValue → String
  | .undefinedV => "undefined"
  | .nullV => "object"
  | .boolV _ => "boolean"
  | .numV _ => "number"
  | .strV _ => "string"
  | .arrayV _ => "object"
  | .objectV => "object"
  | .funcV => "function"

/-- The `Array.isArray` test of `setInputFiles`. -/
def isArray : JSValue → Bool
  | .arrayV _ => true
  | _ => false

/-- Modelled from the spec: the names keyed in the external
`es6-module-transpiler` formatter table (each mapping to a constructor
function); the table itself is not part of this repository. -/
def formatterNames : List String := ["bundle", "commonjs"]

/-- Modelled from the spec: `formatters.DEFAULT`, the name of the built-in
default formatter used when the option is omitted. -/
def defaultFormatterName : String := "bundle"

/-- Resolution performed by `setFormatter` (src/index.js lines 85-112):
falsy values fall back to the default name; a string is looked up in the
formatter table (throwing when no constructor function is found) and
instantiated with `new`, producing an object; finally any value whose
`typeof` is not `"object"` throws. `none` models the throw. -/
def setFormatterResult (v : JSValue) : Option JSValue :=
  let f := if truthy v then v else JSValue.strV defaultFormatterName
  match f with
  | .strV s => if s ∈ formatterNames then some JSValue.objectV else none
  | g => if jsTypeof g = "object" then some g else none

/-- Modelled from the spec: the external `helpers.assertAbsolutePaths`
check of `setOutput`; it succeeds exactly on a string beginning with the
path separator, returning the output path. -/
def absoluteOutput : JSValue → Option String
  | .strV s =>
    match s.data with
    | '/' :: _ => some s
    | _ => none
  | _ => none

/-- Options object handed to the constructor. -/
structure Options where
  inputFiles : JSValue
  output : JSValue
  formatter : JSValue
deriving DecidableEq, Repr

/-- Configured stage after a successful construction; `cache` is the
freshly assigned `this.cache = {}` of src/index.js line 42. -/
structure Config where
  inputTree : JSValue
  inputFiles : JSValue
  output : String
  formatter : JSValue
  cache : Cache
deriving DecidableEq, Repr

/-- The four synchronous constructor failures (all thrown as `Error`
before any pass runs). -/
inductive ConfigError where
  | badInputTree
  | badInputFiles
  | badOutput
  | badFormatter
deriving DecidableEq, Repr

/-- Constructor `CompileModules(inputTree, options)` (src/index.js lines
36-43): validates the input tree, the input file globs, the output path
and the formatter in that order, then creates the empty cache. -/
def construct (inputTree : JSValue) (opts : Options) : Except ConfigError Config :=
  if inputTree = JSValue.undefinedV ∨ inputTree = JSValue.nullV then
    Except.error ConfigError.badInputTree
  else if isArray opts.inputFiles = false then
    Except.error ConfigError.badInputFiles
  else
    match absoluteOutput opts.output with
    | none => Except.error ConfigError.badOutput
    | some out =>
      match setFormatterResult opts.formatter with
      | none => Except.error ConfigError.badFormatter
      | some fmt => Except.ok ⟨inputTree, opts.inputFiles, out, fmt, []⟩

/-- Whether construction succeeded. -/
def constructOk (inputTree : JSValue) (opts : Options) : Bool :=
  match construct inputTree opts with
  | Except.ok _ => true
  | Except.error _ => false

/-- Invalid-configuration predicate written from the spec sentence: a
missing (undefined or null) input tree, a non-array `inputFiles`, a
non-absolute output path, or a formatter that does not resolve to an
object (unrecognized name or wrong shape). -/
def invalidConfigSpec (inputTree : JSValue) (opts : Options) : Prop :=
  inputTree = JSValue.undefinedV ∨ inputTree = JSValue.nullV ∨
    isArray opts.inputFiles = false ∨ absoluteOutput opts.output = none ∨
    setFormatterResult opts.formatter = none

instance (inputTree : JSValue) (opts : Options) :
    Decidable (invalidConfigSpec inputTree opts) := by
  unfold invalidConfigSpec; infer_instance

/-! Concrete scenario data used by counterexamples and witnesses. -/

/-- Source directory with one file `a.js`, fingerprint `5`, bytes `"A"`. -/
def srcOne : SrcFS := [("a.js", ⟨some 5, "A"⟩)]

/-- Source directory whose only file `a.js` vanished between enumeration
and the stat call. -/
def srcGone : SrcFS := [("a.js", ⟨none, "A"⟩)]

/-- Transform collaborator that writes nothing. -/
def trNone : SrcFS → List String → List (String × String) := fun _ _ => []

/-- Transform collaborator writing `"T"` at `a.js` when asked to recompute
exactly `a.js`, and nothing otherwise. -/
def trShifted : SrcFS → List String → List (String × String) :=
  fun _ rs => if rs = ["a.js"] then [("a.js", "T")] else []

/-- Transform collaborator writing `"T"` at each recomputed file's own
relative path. -/
def trPerFile : SrcFS → List String → List (String × String) :=
  fun _ rs => rs.map (fun f => (f, "T"))

/-- Transform collaborator that writes a stray output `b.js` no input file
corresponds to. -/
def trStray : SrcFS → List String → List (String × String) := fun _ _ => [("b.js", "B")]

/-! Basic lemmas about the association-list operations. -/

theorem alistFind_set_self {β : Type} (l : List (String × β)) (k : String) (v : β) :
    alistFind (alistSet l k v) k = some v := by
  induction l with
  | nil => simp [alistSet, alistFind]
  | cons p rest ih =>
    obtain ⟨k0, v0⟩ := p
    by_cases h : k0 = k
    · simp [alistSet, h, alistFind]
    · simp [alistSet, h, alistFind, ih]

theorem alistFind_set_ne {β : Type} (l : List (String × β)) (k : String) (v : β)
    (f : String) (h : f ≠ k) : alistFind (alistSet l k v) f = alistFind l f := by
  have hne : ¬ (k = f) := fun hh => h hh.symm
  induction l with
  | nil => simp [alistSet, alistFind, hne]
  | cons p rest ih =>
    obtain ⟨k0, v0⟩ := p
    by_cases hk : k0 = k
    · subst hk
      simp [alistSet, alistFind, hne]
    · simp [alistSet, hk, alistFind, ih]

theorem isSome_alistFind_set {β : Type} (l : List (String × β)) (k : String) (v : β)
    (f : String) : (alistFind (alistSet l k v) f).isSome = true ↔
      (f = k ∨ (alistFind l f).isSome = true) := by
  by_cases h : f = k
  · subst h; simp [alistFind_set_self]
  · simp [alistFind_set_ne l k v f h, h]

theorem alistFind_isSome_iff_mem {β : Type} (l : List (String × β)) (f : String) :
    (alistFind l f).isSome = true ↔ f ∈ l.map Prod.fst := by
  induction l with
  | nil => simp [alistFind]
  | cons p rest ih =>
    obtain ⟨k0, v0⟩ := p
    by_cases h : k0 = f
    · simp [alistFind, h]
    · simp [alistFind, h, ih, Ne.symm h]

theorem string_append_cancel (s a b : String) (h : s ++ a = s ++ b) : a = b := by
  have hd : (s ++ a).data = (s ++ b).data := congrArg String.data h
  simp only [String.data_append] at hd
  exact String.ext (List.append_cancel_left hd)

theorem joinPath_inj (output a b : String) (h : joinPath output a = joinPath output b) :
    a = b := by
  unfold joinPath at h
  by_cases ho : output = ""
  · simpa [ho] using h
  · simp only [ho, if_false] at h
    have h2 : (output ++ "/") ++ a = (output ++ "/") ++ b := by
      simpa [String.append_assoc] using h
    exact string_append_cancel _ _ _ h2

/-! Lemmas about the glob resolver model. -/

theorem mem_dedupAcc (seen l : List String) (x : String) :
    x ∈ dedupAcc seen l ↔ (x ∈ l ∧ x ∉ seen) := by
  induction l generalizing seen with
  | nil => simp [dedupAcc]
  | cons p ps ih =>
    by_cases hp : p ∈ seen
    · rw [show dedupAcc seen (p :: ps) = dedupAcc seen ps from by simp [dedupAcc, hp]]
      rw [ih seen]
      constructor
      · rintro ⟨h1, h2⟩; exact ⟨List.mem_cons_of_mem _ h1, h2⟩
      · rintro ⟨h1, h2⟩
        rcases List.mem_cons.mp h1 with rfl | h1
        · exact absurd hp h2
        · exact ⟨h1, h2⟩
    · rw [show dedupAcc seen (p :: ps) = p :: dedupAcc (p :: seen) ps from by
        simp [dedupAcc, hp]]
      constructor
      · intro hx
        rcases List.mem_cons.mp hx with rfl | hx
        · exact ⟨List.mem_cons_self _ _, hp⟩
        · obtain ⟨h1, h2⟩ := (ih (p :: seen)).mp hx
          exact ⟨List.mem_cons_of_mem _ h1, fun hc => h2 (List.mem_cons_of_mem _ hc)⟩
      · rintro ⟨h1, h2⟩
        by_cases hxp : x = p
        · subst hxp; exact List.mem_cons_self _ _
        · rcases List.mem_cons.mp h1 with rfl | h1
          · exact absurd rfl hxp
          · refine List.mem_cons_of_mem _ ((ih (p :: seen)).mpr ⟨h1, fun hc => ?_⟩)
            rcases List.mem_cons.mp hc with h3 | h3
            · exact hxp h3
            · exact h2 h3

theorem nodup_dedupAcc (seen l : List String) : (dedupAcc seen l).Nodup := by
  induction l generalizing seen with
  | nil => simp [dedupAcc]
  | cons p ps ih =>
    by_cases hp : p ∈ seen
    · rw [show dedupAcc seen (p :: ps) = dedupAcc seen ps from by simp [dedupAcc, hp]]
      exact ih seen
    · rw [show dedupAcc seen (p :: ps) = p :: dedupAcc (p :: seen) ps from by
        simp [dedupAcc, hp]]
      refine List.nodup_cons.mpr ⟨fun hc => ?_, ih (p :: seen)⟩
      have := (mem_dedupAcc (p :: seen) ps p).mp hc
      exact this.2 (List.mem_cons_self p seen)

theorem mem_multiGlob (pats paths : List String) (p : String) :
    p ∈ multiGlob pats paths ↔ (p ∈ paths ∧ matchesAny pats p = true) := by
  unfold multiGlob
  rw [mem_dedupAcc]
  simp only [List.mem_flatten, List.mem_map, List.not_mem_nil, not_false_iff, and_true]
  constructor
  · rintro ⟨l, ⟨pat, hpat, rfl⟩, hl⟩
    rw [List.mem_filter] at hl
    refine ⟨hl.1, ?_⟩
    simp only [matchesAny, List.any_eq_true]
    exact ⟨pat, hpat, hl.2⟩
  · rintro ⟨hmem, hmatch⟩
    simp only [matchesAny, List.any_eq_true] at hmatch
    obtain ⟨pat, hpat, hm⟩ := hmatch
    exact ⟨paths.filter (fun q => globMatch pat q), ⟨pat, hpat, rfl⟩,
      List.mem_filter.mpr ⟨hmem, hm⟩⟩

theorem nodup_multiGlob (pats paths : List String) : (multiGlob pats paths).Nodup :=
  nodup_dedupAcc [] _

/-! Lemmas about the planning loop. -/

theorem planLoop_err_none (output : String) (src : SrcFS) (files : List String)
    (st : LoopState) (h : ∀ g ∈ files, (statFingerprint src g).isSome = true) :
    (planLoop output src files st).2 = none := by
  induction files generalizing st with
  | nil => simp [planLoop]
  | cons f fs ih =>
    have hf := h f (List.mem_cons_self f fs)
    have hrest : ∀ g ∈ fs, (statFingerprint src g).isSome = true :=
      fun g hg => h g (List.mem_cons_of_mem _ hg)
    cases hstat : statFingerprint src f with
    | none => rw [hstat] at hf; simp at hf
    | some hsh =>
      cases hfind : alistFind st.cache f with
      | some e =>
        by_cases he : e.hash = hsh
        · simp only [planLoop, hstat, hfind, he, if_pos]
          exact ih _ hrest
        · simp only [planLoop, hstat, hfind, if_neg he]
          exact ih _ hrest
      | none =>
        simp only [planLoop, hstat, hfind]
        exact ih _ hrest

theorem planLoop_append_none (output : String) (src : SrcFS) (xs ys : List String)
    (st : LoopState) (h : (planLoop output src xs st).2 = none) :
    planLoop output src (xs ++ ys) st = planLoop output src ys (planLoop output src xs st).1 := by
  induction xs generalizing st with
  | nil => simp [planLoop]
  | cons f fs ih =>
    cases hstat : statFingerprint src f with
    | none => simp only [planLoop, hstat] at h; simp at h
    | some hsh =>
      cases hfind : alistFind st.cache f with
      | some e =>
        by_cases he : e.hash = hsh
        · simp only [planLoop, hstat, hfind, he, if_pos, List.cons_append] at h ⊢
          exact ih _ h
        · simp only [planLoop, hstat, hfind, if_neg he, List.cons_append] at h ⊢
          exact ih _ h
      | none =>
        simp only [planLoop, hstat, hfind, List.cons_append] at h ⊢
        exact ih _ h

theorem planLoop_append_some (output : String) (src : SrcFS) (xs ys : List String)
    (st : LoopState) (e : PassError) (h : (planLoop output src xs st).2 = some e) :
    planLoop output src (xs ++ ys) st = planLoop output src xs st := by
  induction xs generalizing st with
  | nil => simp [planLoop] at h
  | cons f fs ih =>
    cases hstat : statFingerprint src f with
    | none => simp only [planLoop, hstat, List.cons_append]
    | some hsh =>
      cases hfind : alistFind st.cache f with
      | some e0 =>
        by_cases he : e0.hash = hsh
        · simp only [planLoop, hstat, hfind, he, if_pos, List.cons_append] at h ⊢
          exact ih _ h
        · simp only [planLoop, hstat, hfind, if_neg he, List.cons_append] at h ⊢
          exact ih _ h
      | none =>
        simp only [planLoop, hstat, hfind, List.cons_append] at h ⊢
        exact ih _ h

theorem planLoop_cache_untouched (output : String) (src : SrcFS) (files : List String)
    (st : LoopState) (g : String) (hg : g ∉ files) :
    alistFind (planLoop output src files st).1.cache g = alistFind st.cache g := by
  induction files generalizing st with
  | nil => simp [planLoop]
  | cons f fs ih =>
    have hgf : g ≠ f := fun hh => hg (hh ▸ List.mem_cons_self f fs)
    have hgfs : g ∉ fs := fun hh => hg (List.mem_cons_of_mem _ hh)
    cases hstat : statFingerprint src f with
    | none => simp [planLoop, hstat]
    | some hsh =>
      cases hfind : alistFind st.cache f with
      | some e =>
        by_cases he : e.hash = hsh
        · simp only [planLoop, hstat, hfind, he, if_pos]
          exact ih _ hgfs
        · simp only [planLoop, hstat, hfind, if_neg he]
          rw [ih _ hgfs]
          exact alistFind_set_ne _ _ _ _ hgf
      | none =>
        simp only [planLoop, hstat, hfind]
        rw [ih _ hgfs]
        exact alistFind_set_ne _ _ _ _ hgf

theorem planLoop_cache_mono (output : String) (src : SrcFS) (files : List String)
    (st : LoopState) (g : String) (h : (alistFind st.cache g).isSome = true) :
    (alistFind (planLoop output src files st).1.cache g).isSome = true := by
  induction files generalizing st with
  | nil => simpa [planLoop] using h
  | cons f fs ih =>
    cases hstat : statFingerprint src f with
    | none => simpa [planLoop, hstat] using h
    | some hsh =>
      cases hfind : alistFind st.cache f with
      | some e =>
        by_cases he : e.hash = hsh
        · simp only [planLoop, hstat, hfind, he, if_pos]
          exact ih _ h
        · simp only [planLoop, hstat, hfind, if_neg he]
          exact ih _ ((isSome_alistFind_set _ _ _ _).mpr (Or.inr h))
      | none =>
        simp only [planLoop, hstat, hfind]
        exact ih _ ((isSome_alistFind_set _ _ _ _).mpr (Or.inr h))

theorem planLoop_replay_extend (output : String) (src : SrcFS) (files : List String)
    (st : LoopState) : ∃ l, (planLoop output src files st).1.replay = st.replay ++ l ∧
      ∀ x ∈ l, x ∈ files := by
  induction files generalizing st with
  | nil => exact ⟨[], by simp [planLoop]⟩
  | cons f fs ih =>
    cases hstat : statFingerprint src f with
    | none => exact ⟨[], by simp [planLoop, hstat]⟩
    | some hsh =>
      cases hfind : alistFind st.cache f with
      | some e =>
        by_cases he : e.hash = hsh
        · obtain ⟨l, hl, hmem⟩ := ih { st with
            dest := alistSet st.dest (joinPath output f) (contentBytes e.content)
            replay := st.replay ++ [f] }
          refine ⟨f :: l, ?_, ?_⟩
          · simp only [planLoop, hstat, hfind, he, if_pos]
            rw [hl]; simp
          · intro x hx
            rcases List.mem_cons.mp hx with rfl | hx
            · exact List.mem_cons_self _ _
            · exact List.mem_cons_of_mem _ (hmem x hx)
        · obtain ⟨l, hl, hmem⟩ := ih { st with
            cache := alistSet st.cache f { hash := hsh, content := e.content }
            recompute := st.recompute ++ [f] }
          refine ⟨l, ?_, fun x hx => List.mem_cons_of_mem _ (hmem x hx)⟩
          simp only [planLoop, hstat, hfind, if_neg he]
          exact hl
      | none =>
        obtain ⟨l, hl, hmem⟩ := ih { st with
          cache := alistSet st.cache f { hash := hsh, content := none }
          recompute := st.recompute ++ [f] }
        refine ⟨l, ?_, fun x hx => List.mem_cons_of_mem _ (hmem x hx)⟩
        simp only [planLoop, hstat, hfind]
        exact hl

theorem planLoop_recompute_extend (output : String) (src : SrcFS) (files : List String)
    (st : LoopState) : ∃ l, (planLoop output src files st).1.recompute = st.recompute ++ l ∧
      ∀ x ∈ l, x ∈ files := by
  induction files generalizing st with
  | nil => exact ⟨[], by simp [planLoop]⟩
  | cons f fs ih =>
    cases hstat : statFingerprint src f with
    | none => exact ⟨[], by simp [planLoop, hstat]⟩
    | some hsh =>
      cases hfind : alistFind st.cache f with
      | some e =>
        by_cases he : e.hash = hsh
        · obtain ⟨l, hl, hmem⟩ := ih { st with
            dest := alistSet st.dest (joinPath output f) (contentBytes e.content)
            replay := st.replay ++ [f] }
          refine ⟨l, ?_, fun x hx => List.mem_cons_of_mem _ (hmem x hx)⟩
          simp only [planLoop, hstat, hfind, he, if_pos]
          exact hl
        · obtain ⟨l, hl, hmem⟩ := ih { st with
            cache := alistSet st.cache f { hash := hsh, content := e.content }
            recompute := st.recompute ++ [f] }
          refine ⟨f :: l, ?_, ?_⟩
          · simp only [planLoop, hstat, hfind, if_neg he]
            rw [hl]; simp
          · intro x hx
            rcases List.mem_cons.mp hx with rfl | hx
            · exact List.mem_cons_self _ _
            · exact List.mem_cons_of_mem _ (hmem x hx)
      | none =>
        obtain ⟨l, hl, hmem⟩ := ih { st with
          cache := alistSet st.cache f { hash := hsh, content := none }
          recompute := st.recompute ++ [f] }
        refine ⟨f :: l, ?_, ?_⟩
        · simp only [planLoop, hstat, hfind]
          rw [hl]; simp
        · intro x hx
          rcases List.mem_cons.mp hx with rfl | hx
          · exact List.mem_cons_self _ _
          · exact List.mem_cons_of_mem _ (hmem x hx)

theorem planLoop_dest_frame (output : String) (src : SrcFS) (files : List String)
    (st : LoopState) (p : String) (hp : ∀ g ∈ files, p ≠ joinPath output g) :
    alistFind (planLoop output src files st).1.dest p = alistFind st.dest p := by
  induction files generalizing st with
  | nil => simp [planLoop]
  | cons f fs ih =>
    have hpf : p ≠ joinPath output f := hp f (List.mem_cons_self f fs)
    have hrest : ∀ g ∈ fs, p ≠ joinPath output g :=
      fun g hg => hp g (List.mem_cons_of_mem _ hg)
    cases hstat : statFingerprint src f with
    | none => simp [planLoop, hstat]
    | some hsh =>
      cases hfind : alistFind st.cache f with
      | some e =>
        by_cases he : e.hash = hsh
        · simp only [planLoop, hstat, hfind, he, if_pos]
          rw [ih _ hrest]
          exact alistFind_set_ne _ _ _ _ hpf
        · simp only [planLoop, hstat, hfind, if_neg he]
          exact ih _ hrest
      | none =>
        simp only [planLoop, hstat, hfind]
        exact ih _ hrest

theorem planLoop_entry_hash (output : String) (src : SrcFS) (files : List String)
    (st : LoopState) (hnd : files.Nodup)
    (herr : (planLoop output src files st).2 = none) :
    ∀ f ∈ files, ∃ fp e, statFingerprint src f = some fp ∧
      alistFind (planLoop output src files st).1.cache f = some e ∧ e.hash = fp := by
  induction files generalizing st with
  | nil => intro f hf; simp at hf
  | cons g gs ih =>
    have hgnot : g ∉ gs := (List.nodup_cons.mp hnd).1
    have hnd2 : gs.Nodup := (List.nodup_cons.mp hnd).2
    intro f hf
    cases hstat : statFingerprint src g with
    | none => simp only [planLoop, hstat] at herr; simp at herr
    | some hsh =>
      cases hfind : alistFind st.cache g with
      | some e =>
        by_cases he : e.hash = hsh
        · simp only [planLoop, hstat, hfind, he, if_pos] at herr ⊢
          rcases List.mem_cons.mp hf with rfl | hf2
          · refine ⟨hsh, e, hstat, ?_, he⟩
            rw [planLoop_cache_untouched output src gs _ f hgnot]
            exact hfind
          · exact ih _ hnd2 herr f hf2
        · simp only [planLoop, hstat, hfind, if_neg he] at herr ⊢
          rcases List.mem_cons.mp hf with rfl | hf2
          · refine ⟨hsh, ⟨hsh, e.content⟩, hstat, ?_, rfl⟩
            rw [planLoop_cache_untouched output src gs _ f hgnot]
            exact alistFind_set_self _ _ _
          · exact ih _ hnd2 herr f hf2
      | none =>
        simp only [planLoop, hstat, hfind] at herr ⊢
        rcases List.mem_cons.mp hf with rfl | hf2
        · refine ⟨hsh, ⟨hsh, none⟩, hstat, ?_, rfl⟩
          rw [planLoop_cache_untouched output src gs _ f hgnot]
          exact alistFind_set_self _ _ _
        · exact ih _ hnd2 herr f hf2

theorem planLoop_all_replay (output : String) (src : SrcFS) (files : List String)
    (st : LoopState)
    (hall : ∀ f ∈ files, ∃ fp e, statFingerprint src f = some fp ∧
      alistFind st.cache f = some e ∧ e.hash = fp) :
    (planLoop output src files st).2 = none ∧
    (planLoop output src files st).1.cache = st.cache ∧
    (planLoop output src files st).1.recompute = st.recompute ∧
    (planLoop output src files st).1.replay = st.replay ++ files ∧
    ∀ f ∈ files, ∃ e, alistFind st.cache f = some e ∧
      alistFind (planLoop output src files st).1.dest (joinPath output f) =
        some (contentBytes e.content) := by
  induction files generalizing st with
  | nil =>
    refine ⟨by simp [planLoop], by simp [planLoop], by simp [planLoop],
      by simp [planLoop], ?_⟩
    intro f hf; simp at hf
  | cons f fs ih =>
    obtain ⟨fp, e, hstat, hfind, hhash⟩ := hall f (List.mem_cons_self f fs)
    have hstep : planLoop output src (f :: fs) st = planLoop output src fs
        { st with
          dest := alistSet st.dest (joinPath output f) (contentBytes e.content)
          replay := st.replay ++ [f] } := by
      simp only [planLoop, hstat, hfind, hhash, if_pos]
    have hall2 : ∀ g ∈ fs, ∃ fp2 e2, statFingerprint src g = some fp2 ∧
        alistFind ({ st with
          dest := alistSet st.dest (joinPath output f) (contentBytes e.content)
          replay := st.replay ++ [f] } : LoopState).cache g = some e2 ∧ e2.hash = fp2 :=
      fun g hg => hall g (List.mem_cons_of_mem _ hg)
    obtain ⟨iherr, ihcache, ihrec, ihreplay, ihdest⟩ := ih _ hall2
    rw [hstep]
    refine ⟨iherr, ihcache, ihrec, ?_, ?_⟩
    · rw [ihreplay]; simp
    · intro g hg
      by_cases hgfs : g ∈ fs
      · exact ihdest g hgfs
      · rcases List.mem_cons.mp hg with rfl | hg2
        · refine ⟨e, hfind, ?_⟩
          rw [planLoop_dest_frame output src fs _ (joinPath output g) ?_]
          · exact alistFind_set_self _ _ _
          · intro x hx hjoin
            exact hgfs ((joinPath_inj output g x hjoin) ▸ hx)
        · exact absurd hg2 hgfs

/-! Lemmas about the reconciliation loop. -/

theorem reconcile_hash (output : String) (dest : Dest) (ps : List String) (c : Cache)
    (f : String) : (alistFind (reconcile output dest ps c).1 f).map CacheEntry.hash =
      (alistFind c f).map CacheEntry.hash := by
  induction ps generalizing c with
  | nil => simp [reconcile]
  | cons p ps2 ih =>
    cases hfind : alistFind c p with
    | none => simp [reconcile, hfind]
    | some e =>
      cases hread : alistFind dest (joinPath output p) with
      | none => simp [reconcile, hfind, hread]
      | some bytes =>
        simp only [reconcile, hfind, hread]
        rw [ih _]
        by_cases hfp : f = p
        · subst hfp
          rw [alistFind_set_self, hfind]
          simp
        · rw [alistFind_set_ne _ _ _ _ hfp]

theorem reconcile_isSome (output : String) (dest : Dest) (ps : List String) (c : Cache)
    (f : String) : (alistFind (reconcile output dest ps c).1 f).isSome =
      (alistFind c f).isSome := by
  have h := reconcile_hash output dest ps c f
  cases h1 : alistFind (reconcile output dest ps c).1 f <;>
    cases h2 : alistFind c f <;> simp [h1, h2] at h ⊢

theorem reconcile_untouched (output : String) (dest : Dest) (ps : List String) (c : Cache)
    (f : String) (hf : f ∉ ps) : alistFind (reconcile output dest ps c).1 f = alistFind c f := by
  induction ps generalizing c with
  | nil => simp [reconcile]
  | cons p ps2 ih =>
    have hfp : f ≠ p := fun hh => hf (hh ▸ List.mem_cons_self p ps2)
    have hfp2 : f ∉ ps2 := fun hh => hf (List.mem_cons_of_mem _ hh)
    cases hfind : alistFind c p with
    | none => simp [reconcile, hfind]
    | some e =>
      cases hread : alistFind dest (joinPath output p) with
      | none => simp [reconcile, hfind, hread]
      | some bytes =>
        simp only [reconcile, hfind, hread]
        rw [ih _ hfp2]
        exact alistFind_set_ne _ _ _ _ hfp

theorem reconcile_err_none_iff (output : String) (dest : Dest) (ps : List String)
    (c : Cache) : (reconcile output dest ps c).2.2 = none ↔
      ∀ p ∈ ps, (alistFind c p).isSome = true ∧
        (alistFind dest (joinPath output p)).isSome = true := by
  induction ps generalizing c with
  | nil => simp [reconcile]
  | cons p ps2 ih =>
    cases hfind : alistFind c p with
    | none =>
      simp only [reconcile, hfind]
      constructor
      · intro h; simp at h
      · intro h
        have := (h p (List.mem_cons_self p ps2)).1
        rw [hfind] at this; simp at this
    | some e =>
      cases hread : alistFind dest (joinPath output p) with
      | none =>
        simp only [reconcile, hfind, hread]
        constructor
        · intro h; simp at h
        · intro h
          have := (h p (List.mem_cons_self p ps2)).2
          rw [hread] at this; simp at this
      | some bytes =>
        simp only [reconcile, hfind, hread]
        rw [ih _]
        constructor
        · intro h q hq
          rcases List.mem_cons.mp hq with rfl | hq2
          · exact ⟨by simp [hfind], by simp [hread]⟩
          · have := h q hq2
            refine ⟨?_, this.2⟩
            rcases (isSome_alistFind_set c p ⟨e.hash, some bytes⟩ q).mp this.1 with rfl | h2
            · simp [hfind]
            · exact h2
        · intro h q hq2
          have := h q (List.mem_cons_of_mem _ hq2)
          exact ⟨(isSome_alistFind_set c p ⟨e.hash, some bytes⟩ q).mpr (Or.inr this.1),
            this.2⟩

theorem reconcile_contentSet_of_none (output : String) (dest : Dest) (ps : List String)
    (c : Cache) (h : (reconcile output dest ps c).2.2 = none) :
    (reconcile output dest ps c).2.1 = ps := by
  induction ps generalizing c with
  | nil => simp [reconcile]
  | cons p ps2 ih =>
    cases hfind : alistFind c p with
    | none => simp only [reconcile, hfind] at h; simp at h
    | some e =>
      cases hread : alistFind dest (joinPath output p) with
      | none => simp only [reconcile, hfind, hread] at h; simp at h
      | some bytes =>
        simp only [reconcile, hfind, hread] at h ⊢
        rw [ih _ h]

theorem reconcile_content_values (output : String) (dest : Dest) (ps : List String)
    (c : Cache) (hnd : ps.Nodup) (h : (reconcile output dest ps c).2.2 = none) :
    ∀ p ∈ ps, ∃ e, alistFind (reconcile output dest ps c).1 p = some e ∧
      e.content = alistFind dest (joinPath output p) := by
  induction ps generalizing c with
  | nil => intro p hp; simp at hp
  | cons q ps2 ih =>
    have hqnot : q ∉ ps2 := (List.nodup_cons.mp hnd).1
    have hnd2 : ps2.Nodup := (List.nodup_cons.mp hnd).2
    intro p hp
    cases hfind : alistFind c q with
    | none => simp only [reconcile, hfind] at h; simp at h
    | some e =>
      cases hread : alistFind dest (joinPath output q) with
      | none => simp only [reconcile, hfind, hread] at h; simp at h
      | some bytes =>
        simp only [reconcile, hfind, hread] at h ⊢
        rcases List.mem_cons.mp hp with rfl | hp2
        · refine ⟨⟨e.hash, some bytes⟩, ?_, by simp [hread]⟩
          rw [reconcile_untouched output dest ps2 _ p hqnot]
          exact alistFind_set_self _ _ _
        · exact ih _ hnd2 h p hp2

theorem reconcile_missingEntry (output : String) (dest : Dest) (ps : List String)
    (c : Cache) (p : String)
    (h : (reconcile output dest ps c).2.2 = some (PassError.missingEntry p)) :
    p ∈ ps ∧ alistFind (reconcile output dest ps c).1 p = none := by
  induction ps generalizing c with
  | nil => simp [reconcile] at h
  | cons q ps2 ih =>
    cases hfind : alistFind c q with
    | none =>
      simp only [reconcile, hfind] at h ⊢
      simp only [Option.some.injEq, PassError.missingEntry.injEq] at h
      subst h
      exact ⟨List.mem_cons_self _ _, hfind⟩
    | some e =>
      cases hread : alistFind dest (joinPath output q) with
      | none =>
        simp only [reconcile, hfind, hread] at h
        simp at h
      | some bytes =>
        simp only [reconcile, hfind, hread] at h ⊢
        obtain ⟨h1, h2⟩ := ih _ h
        exact ⟨List.mem_cons_of_mem _ h1, h2⟩

/-! Unfolding lemmas for the pass function. -/

theorem writePass_eq_of_planLoop (tr : SrcFS → List String → List (String × String))
    (output : String) (patterns : List String) (src : SrcFS) (c0 : Cache)
    (hplan : (planLoop output src (multiGlob patterns (src.map Prod.fst))
      ⟨c0, [], [], []⟩).2 = none) :
    writePass tr output patterns src c0 =
      { cache := (reconcile output
          (writeAll output (tr src (planLoop output src (multiGlob patterns
            (src.map Prod.fst)) ⟨c0, [], [], []⟩).1.recompute)
            (planLoop output src (multiGlob patterns (src.map Prod.fst))
              ⟨c0, [], [], []⟩).1.dest)
          (multiGlob patterns ((writeAll output (tr src (planLoop output src
            (multiGlob patterns (src.map Prod.fst)) ⟨c0, [], [], []⟩).1.recompute)
            (planLoop output src (multiGlob patterns (src.map Prod.fst))
              ⟨c0, [], [], []⟩).1.dest).map Prod.fst))
          (planLoop output src (multiGlob patterns (src.map Prod.fst))
            ⟨c0, [], [], []⟩).1.cache).1
        dest := writeAll output (tr src (planLoop output src (multiGlob patterns
          (src.map Prod.fst)) ⟨c0, [], [], []⟩).1.recompute)
          (planLoop output src (multiGlob patterns (src.map Prod.fst))
            ⟨c0, [], [], []⟩).1.dest
        replay := (planLoop output src (multiGlob patterns (src.map Prod.fst))
          ⟨c0, [], [], []⟩).1.replay
        recompute := (planLoop output src (multiGlob patterns (src.map Prod.fst))
          ⟨c0, [], [], []⟩).1.recompute
        outputFiles := multiGlob patterns ((writeAll output (tr src (planLoop output src
          (multiGlob patterns (src.map Prod.fst)) ⟨c0, [], [], []⟩).1.recompute)
          (planLoop output src (multiGlob patterns (src.map Prod.fst))
            ⟨c0, [], [], []⟩).1.dest).map Prod.fst)
        contentSet := (reconcile output
          (writeAll output (tr src (planLoop output src (multiGlob patterns
            (src.map Prod.fst)) ⟨c0, [], [], []⟩).1.recompute)
            (planLoop output src (multiGlob patterns (src.map Prod.fst))
              ⟨c0, [], [], []⟩).1.dest)
          (multiGlob patterns ((writeAll output (tr src (planLoop output src
            (multiGlob patterns (src.map Prod.fst)) ⟨c0, [], [], []⟩).1.recompute)
            (planLoop output src (multiGlob patterns (src.map Prod.fst))
              ⟨c0, [], [], []⟩).1.dest).map Prod.fst))
          (planLoop output src (multiGlob patterns (src.map Prod.fst))
            ⟨c0, [], [], []⟩).1.cache).2.1
        invokerCalls := 1
        error := (reconcile output
          (writeAll output (tr src (planLoop output src (multiGlob patterns
            (src.map Prod.fst)) ⟨c0, [], [], []⟩).1.recompute)
            (planLoop output src (multiGlob patterns (src.map Prod.fst))
              ⟨c0, [], [], []⟩).1.dest)
          (multiGlob patterns ((writeAll output (tr src (planLoop output src
            (multiGlob patterns (src.map Prod.fst)) ⟨c0, [], [], []⟩).1.recompute)
            (planLoop output src (multiGlob patterns (src.map Prod.fst))
              ⟨c0, [], [], []⟩).1.dest).map Prod.fst))
          (planLoop output src (multiGlob patterns (src.map Prod.fst))
            ⟨c0, [], [], []⟩).1.cache).2.2 } := by
  simp only [writePass]
  rw [hplan]

theorem writePass_eq_of_planLoop_err (tr : SrcFS → List String → List (String × String))
    (output : String) (patterns : List String) (src : SrcFS) (c0 : Cache) (e : PassError)
    (hplan : (planLoop output src (multiGlob patterns (src.map Prod.fst))
      ⟨c0, [], [], []⟩).2 = some e) :
    writePass tr output patterns src c0 =
      { cache := (planLoop output src (multiGlob patterns (src.map Prod.fst))
          ⟨c0, [], [], []⟩).1.cache
        dest := (planLoop output src (multiGlob patterns (src.map Prod.fst))
          ⟨c0, [], [], []⟩).1.dest
        replay := (planLoop output src (multiGlob patterns (src.map Prod.fst))
          ⟨c0, [], [], []⟩).1.replay
        recompute := (planLoop output src (multiGlob patterns (src.map Prod.fst))
          ⟨c0, [], [], []⟩).1.recompute
        outputFiles := []
        contentSet := []
        invokerCalls := 0
        error := some e } := by
  simp only [writePass]
  rw [hplan]

/-- Planning over identities none of which has a cache entry: all are
classified as recompute, none as replay. -/
theorem planLoop_cold (output : String) (src : SrcFS) (files : List String)
    (st : LoopState) (hnd : files.Nodup)
    (hstats : ∀ g ∈ files, (statFingerprint src g).isSome = true)
    (hmiss : ∀ g ∈ files, alistFind st.cache g = none) :
    (planLoop output src files st).2 = none ∧
    (planLoop output src files st).1.recompute = st.recompute ++ files ∧
    (planLoop output src files st).1.replay = st.replay := by
  induction files generalizing st with
  | nil => simp [planLoop]
  | cons f fs ih =>
    have hfnot : f ∉ fs := (List.nodup_cons.mp hnd).1
    have hnd2 : fs.Nodup := (List.nodup_cons.mp hnd).2
    obtain ⟨h, hstat⟩ := Option.isSome_iff_exists.mp (hstats f (List.mem_cons_self f fs))
    have hfind : alistFind st.cache f = none := hmiss f (List.mem_cons_self f fs)
    have hstep : planLoop output src (f :: fs) st = planLoop output src fs
        { st with
          cache := alistSet st.cache f { hash := h, content := none }
          recompute := st.recompute ++ [f] } := by
      simp only [planLoop, hstat, hfind]
    have hmiss2 : ∀ g ∈ fs, alistFind ({ st with
        cache := alistSet st.cache f { hash := h, content := none }
        recompute := st.recompute ++ [f] } : LoopState).cache g = none := by
      intro g hg
      have hgf : g ≠ f := fun hh => hfnot (hh ▸ hg)
      simpa [alistFind_set_ne st.cache f _ g hgf] using hmiss g (List.mem_cons_of_mem _ hg)
    obtain ⟨iherr, ihrec, ihreplay⟩ := ih _ hnd2
      (fun g hg => hstats g (List.mem_cons_of_mem _ hg)) hmiss2
    rw [hstep]
    refine ⟨iherr, ?_, ihreplay⟩
    rw [ihrec]; simp

/-! Claim C1. -/

/-- Cache holding an entry for `a.js` whose fingerprint matches `srcOne`
but which has no content yet. -/
def cacheNoContent : Cache := [("a.js", ⟨5, none⟩)]

/-- C1 counterexample: with a cache entry for `a.js` whose stored
fingerprint equals the fresh fingerprint but which has no content yet,
the pass classifies `a.js` as replay (writing the `undefined` coercion
placeholder to the destination), not as recompute as the claim states. -/
theorem claim1_counterexample :
    (writePass trNone "out" ["*.js"] srcOne cacheNoContent).replay = ["a.js"] ∧
    (writePass trNone "out" ["*.js"] srcOne cacheNoContent).recompute = [] ∧
    alistFind (writePass trNone "out" ["*.js"] srcOne cacheNoContent).dest "out/a.js" =
      some "undefined" := by
  refine ⟨?_, ?_, ?_⟩ <;> decide

/-- C1 (amended): in the planning loop, every identity whose cache entry
stores a fingerprint equal to the freshly computed one is classified as
replay and never as recompute, regardless of whether the entry has
content; the bytes written to its destination path are the cached content
(the string `"undefined"` when the entry has no content yet). -/
theorem claim1_replay_ignores_content (output : String) (src : SrcFS)
    (pre post : List String) (f : String) (c0 : Cache) (e : CacheEntry)
    (hpre : ∀ g ∈ pre, (statFingerprint src g).isSome = true)
    (hfpre : f ∉ pre) (hfpost : f ∉ post)
    (hentry : alistFind c0 f = some e)
    (hfp : statFingerprint src f = some e.hash) :
    f ∈ (planLoop output src (pre ++ f :: post) ⟨c0, [], [], []⟩).1.replay ∧
    f ∉ (planLoop output src (pre ++ f :: post) ⟨c0, [], [], []⟩).1.recompute ∧
    alistFind (planLoop output src (pre ++ f :: post) ⟨c0, [], [], []⟩).1.dest
      (joinPath output f) = some (contentBytes e.content) := by
  have herr1 : (planLoop output src pre (⟨c0, [], [], []⟩ : LoopState)).2 = none :=
    planLoop_err_none output src pre _ hpre
  have happ := planLoop_append_none output src pre (f :: post) ⟨c0, [], [], []⟩ herr1
  have hfind1 : alistFind (planLoop output src pre
      (⟨c0, [], [], []⟩ : LoopState)).1.cache f = some e := by
    rw [planLoop_cache_untouched output src pre _ f hfpre]
    exact hentry
  have hstep : planLoop output src (f :: post)
      (planLoop output src pre (⟨c0, [], [], []⟩ : LoopState)).1 =
      planLoop output src post
        { (planLoop output src pre (⟨c0, [], [], []⟩ : LoopState)).1 with
          dest := alistSet (planLoop output src pre
            (⟨c0, [], [], []⟩ : LoopState)).1.dest (joinPath output f)
            (contentBytes e.content)
          replay := (planLoop output src pre
            (⟨c0, [], [], []⟩ : LoopState)).1.replay ++ [f] } := by
    simp [planLoop, hfp, hfind1]
  rw [happ, hstep]
  refine ⟨?_, ?_, ?_⟩
  · obtain ⟨l, hl, _⟩ := planLoop_replay_extend output src post
      { (planLoop output src pre (⟨c0, [], [], []⟩ : LoopState)).1 with
        dest := alistSet (planLoop output src pre
          (⟨c0, [], [], []⟩ : LoopState)).1.dest (joinPath output f)
          (contentBytes e.content)
        replay := (planLoop output src pre
          (⟨c0, [], [], []⟩ : LoopState)).1.replay ++ [f] }
    rw [hl]
    exact List.mem_append.mpr (Or.inl (List.mem_append.mpr (Or.inr
      (List.mem_singleton.mpr rfl))))
  · intro hmem
    obtain ⟨l2, hl2, hmem2⟩ := planLoop_recompute_extend output src post
      { (planLoop output src pre (⟨c0, [], [], []⟩ : LoopState)).1 with
        dest := alistSet (planLoop output src pre
          (⟨c0, [], [], []⟩ : LoopState)).1.dest (joinPath output f)
          (contentBytes e.content)
        replay := (planLoop output src pre
          (⟨c0, [], [], []⟩ : LoopState)).1.replay ++ [f] }
    rw [hl2] at hmem
    rcases List.mem_append.mp hmem with hmem3 | hmem3
    · obtain ⟨l3, hl3, hmem4⟩ := planLoop_recompute_extend output src pre
        (⟨c0, [], [], []⟩ : LoopState)

      have : f ∈ l3 := by
        have hrec : (planLoop output src pre
            (⟨c0, [], [], []⟩ : LoopState)).1.recompute = l3 := by
          simpa using hl3
        rw [hrec] at hmem3
        simpa using hmem3
      exact hfpre (hmem4 f this)
    · exact hfpost (hmem2 f hmem3)
  · rw [planLoop_dest_frame output src post _ (joinPath output f)
      (fun g hg hjoin => hfpost ((joinPath_inj output f g hjoin) ▸ hg))]
    exact alistFind_set_self _ _ _

/-- C1 witness: the amended theorem applied to the concrete one-file
scenario with a content-less entry and matching fingerprint. -/
theorem claim1_witness :
    alistFind cacheNoContent "a.js" = some ⟨5, none⟩ ∧
    statFingerprint srcOne "a.js" = some 5 ∧
    ("a.js" ∈ (planLoop "out" srcOne ["a.js"]
        ⟨cacheNoContent, [], [], []⟩).1.replay ∧
      "a.js" ∉ (planLoop "out" srcOne ["a.js"]
        ⟨cacheNoContent, [], [], []⟩).1.recompute ∧
      alistFind (planLoop "out" srcOne ["a.js"]
        ⟨cacheNoContent, [], [], []⟩).1.dest (joinPath "out" "a.js") =
        some (contentBytes none)) := by
  refine ⟨by decide, by decide, ?_⟩
  exact claim1_replay_ignores_content "out" srcOne [] [] "a.js" cacheNoContent
    ⟨5, none⟩ (by intro g hg; simp at hg) (by simp) (by simp) (by decide) (by decide)

/-! Claim C4. -/

/-- C4: an identity with no cache entry at planning time gets a fresh
entry holding the computed fingerprint and no content and is classified
as recompute, never replay; and on a pass starting from the empty cache
every enumerated identity is classified as recompute and none as
replay. -/
theorem claim4_cold_miss :
    (∀ (output : String) (src : SrcFS) (pre post : List String) (f : String)
       (c0 : Cache) (h : Nat),
       (∀ g ∈ pre, (statFingerprint src g).isSome = true) → f ∉ pre → f ∉ post →
       alistFind c0 f = none → statFingerprint src f = some h →
       f ∈ (planLoop output src (pre ++ f :: post) ⟨c0, [], [], []⟩).1.recompute ∧
       f ∉ (planLoop output src (pre ++ f :: post) ⟨c0, [], [], []⟩).1.replay ∧
       alistFind (planLoop output src (pre ++ f :: post) ⟨c0, [], [], []⟩).1.cache f =
         some ⟨h, none⟩) ∧
    (∀ (tr : SrcFS → List String → List (String × String)) (output : String)
       (patterns : List String) (src : SrcFS),
       (∀ g ∈ multiGlob patterns (src.map Prod.fst),
         (statFingerprint src g).isSome = true) →
       (writePass tr output patterns src []).recompute =
         multiGlob patterns (src.map Prod.fst) ∧
       (writePass tr output patterns src []).replay = []) := by
  constructor
  · intro output src pre post f c0 h hpre hfpre hfpost hentry hfp
    have herr1 : (planLoop output src pre (⟨c0, [], [], []⟩ : LoopState)).2 = none :=
      planLoop_err_none output src pre _ hpre
    have happ := planLoop_append_none output src pre (f :: post) ⟨c0, [], [], []⟩ herr1
    have hfind1 : alistFind (planLoop output src pre
        (⟨c0, [], [], []⟩ : LoopState)).1.cache f = none := by
      rw [planLoop_cache_untouched output src pre _ f hfpre]
      exact hentry
    have hstep : planLoop output src (f :: post)
        (planLoop output src pre (⟨c0, [], [], []⟩ : LoopState)).1 =
        planLoop output src post
          { (planLoop output src pre (⟨c0, [], [], []⟩ : LoopState)).1 with
            cache := alistSet (planLoop output src pre
              (⟨c0, [], [], []⟩ : LoopState)).1.cache f { hash := h, content := none }
            recompute := (planLoop output src pre
              (⟨c0, [], [], []⟩ : LoopState)).1.recompute ++ [f] } := by
      simp only [planLoop, hfp, hfind1]
    rw [happ, hstep]
    refine ⟨?_, ?_, ?_⟩
    · obtain ⟨l, hl, _⟩ := planLoop_recompute_extend output src post
        { (planLoop output src pre (⟨c0, [], [], []⟩ : LoopState)).1 with
          cache := alistSet (planLoop output src pre
            (⟨c0, [], [], []⟩ : LoopState)).1.cache f { hash := h, content := none }
          recompute := (planLoop output src pre
            (⟨c0, [], [], []⟩ : LoopState)).1.recompute ++ [f] }
      rw [hl]
      exact List.mem_append.mpr (Or.inl (List.mem_append.mpr (Or.inr
        (List.mem_singleton.mpr rfl))))
    · intro hmem
      obtain ⟨l2, hl2, hmem2⟩ := planLoop_replay_extend output src post
        { (planLoop output src pre (⟨c0, [], [], []⟩ : LoopState)).1 with
          cache := alistSet (planLoop output src pre
            (⟨c0, [], [], []⟩ : LoopState)).1.cache f { hash := h, content := none }
          recompute := (planLoop output src pre
            (⟨c0, [], [], []⟩ : LoopState)).1.recompute ++ [f] }
      rw [hl2] at hmem
      rcases List.mem_append.mp hmem with hmem3 | hmem3
      · obtain ⟨l3, hl3, hmem4⟩ := planLoop_replay_extend output src pre
          (⟨c0, [], [], []⟩ : LoopState)
        have : f ∈ l3 := by
          have hrep : (planLoop output src pre
              (⟨c0, [], [], []⟩ : LoopState)).1.replay = l3 := by
            simpa using hl3
          rw [show ({ (planLoop output src pre (⟨c0, [], [], []⟩ : LoopState)).1 with
              cache := alistSet (planLoop output src pre
                (⟨c0, [], [], []⟩ : LoopState)).1.cache f { hash := h, content := none }
              recompute := (planLoop output src pre
                (⟨c0, [], [], []⟩ : LoopState)).1.recompute ++ [f] } : LoopState).replay =
              (planLoop output src pre (⟨c0, [], [], []⟩ : LoopState)).1.replay from rfl,
            hrep] at hmem3
          exact hmem3
        exact hfpre (hmem4 f this)
      · exact hfpost (hmem2 f hmem3)
    · rw [planLoop_cache_untouched output src post _ f hfpost]
      exact alistFind_set_self _ _ _
  · intro tr output patterns src hstats
    obtain ⟨herr, hrec, hreplay⟩ := planLoop_cold output src
      (multiGlob patterns (src.map Prod.fst)) ⟨[], [], [], []⟩
      (nodup_multiGlob patterns (src.map Prod.fst)) hstats (by intro g hg; rfl)
    rw [writePass_eq_of_planLoop tr output patterns src [] herr]
    exact ⟨by simpa using hrec, by simpa using hreplay⟩

/-- C4 witness: the theorem applied to the one-file cold-start scenario
with the per-file transform. -/
theorem claim4_witness :
    alistFind ([] : Cache) "a.js" = none ∧
    statFingerprint srcOne "a.js" = some 5 ∧
    ("a.js" ∈ (planLoop "" srcOne ["a.js"] ⟨[], [], [], []⟩).1.recompute ∧
      "a.js" ∉ (planLoop "" srcOne ["a.js"] ⟨[], [], [], []⟩).1.replay ∧
      alistFind (planLoop "" srcOne ["a.js"] ⟨[], [], [], []⟩).1.cache "a.js" =
        some ⟨5, none⟩) ∧
    ((writePass trPerFile "" ["*.js"] srcOne []).recompute =
        multiGlob ["*.js"] (srcOne.map Prod.fst) ∧
      (writePass trPerFile "" ["*.js"] srcOne []).replay = []) := by
  refine ⟨by decide, by decide, ?_, ?_⟩
  · exact claim4_cold_miss.1 "" srcOne [] [] "a.js" [] 5
      (by intro g hg; simp at hg) (by simp) (by simp) (by decide) (by decide)
  · exact claim4_cold_miss.2 trPerFile "" ["*.js"] srcOne (by decide)

/-! Claim C5. -/

/-- C5: for an identity whose entry exists with a different stored
fingerprint, the planning loop overwrites the stored fingerprint with the
fresh one while preserving the entry's existing content, and classifies
the identity as recompute, never replay; the overwrite happens during
planning — before the transform invocation — and reconciliation (the only
step after the recompute) never changes any stored fingerprint. -/
theorem claim5_fingerprint_overwrite :
    (∀ (output : String) (src : SrcFS) (pre post : List String) (f : String)
       (c0 : Cache) (e : CacheEntry) (h : Nat),
       (∀ g ∈ pre, (statFingerprint src g).isSome = true) → f ∉ pre → f ∉ post →
       alistFind c0 f = some e → statFingerprint src f = some h → e.hash ≠ h →
       f ∈ (planLoop output src (pre ++ f :: post) ⟨c0, [], [], []⟩).1.recompute ∧
       f ∉ (planLoop output src (pre ++ f :: post) ⟨c0, [], [], []⟩).1.replay ∧
       alistFind (planLoop output src (pre ++ f :: post) ⟨c0, [], [], []⟩).1.cache f =
         some ⟨h, e.content⟩) ∧
    (∀ (output : String) (dest : Dest) (ps : List String) (c : Cache) (g : String),
       (alistFind (reconcile output dest ps c).1 g).map CacheEntry.hash =
         (alistFind c g).map CacheEntry.hash) := by
  constructor
  · intro output src pre post f c0 e h hpre hfpre hfpost hentry hfp hne
    have herr1 : (planLoop output src pre (⟨c0, [], [], []⟩ : LoopState)).2 = none :=
      planLoop_err_none output src pre _ hpre
    have happ := planLoop_append_none output src pre (f :: post) ⟨c0, [], [], []⟩ herr1
    have hfind1 : alistFind (planLoop output src pre
        (⟨c0, [], [], []⟩ : LoopState)).1.cache f = some e := by
      rw [planLoop_cache_untouched output src pre _ f hfpre]
      exact hentry
    have hstep : planLoop output src (f :: post)
        (planLoop output src pre (⟨c0, [], [], []⟩ : LoopState)).1 =
        planLoop output src post
          { (planLoop output src pre (⟨c0, [], [], []⟩ : LoopState)).1 with
            cache := alistSet (planLoop output src pre
              (⟨c0, [], [], []⟩ : LoopState)).1.cache f { hash := h, content := e.content }
            recompute := (planLoop output src pre
              (⟨c0, [], [], []⟩ : LoopState)).1.recompute ++ [f] } := by
      simp only [planLoop, hfp, hfind1, if_neg hne]
    rw [happ, hstep]
    refine ⟨?_, ?_, ?_⟩
    · obtain ⟨l, hl, _⟩ := planLoop_recompute_extend output src post
        { (planLoop output src pre (⟨c0, [], [], []⟩ : LoopState)).1 with
          cache := alistSet (planLoop output src pre
            (⟨c0, [], [], []⟩ : LoopState)).1.cache f { hash := h, content := e.content }
          recompute := (planLoop output src pre
            (⟨c0, [], [], []⟩ : LoopState)).1.recompute ++ [f] }
      rw [hl]
      exact List.mem_append.mpr (Or.inl (List.mem_append.mpr (Or.inr
        (List.mem_singleton.mpr rfl))))
    · intro hmem
      obtain ⟨l2, hl2, hmem2⟩ := planLoop_replay_extend output src post
        { (planLoop output src pre (⟨c0, [], [], []⟩ : LoopState)).1 with
          cache := alistSet (planLoop output src pre
            (⟨c0, [], [], []⟩ : LoopState)).1.cache f { hash := h, content := e.content }
          recompute := (planLoop output src pre
            (⟨c0, [], [], []⟩ : LoopState)).1.recompute ++ [f] }
      rw [hl2] at hmem
      rcases List.mem_append.mp hmem with hmem3 | hmem3
      · obtain ⟨l3, hl3, hmem4⟩ := planLoop_replay_extend output src pre
          (⟨c0, [], [], []⟩ : LoopState)
        have : f ∈ l3 := by
          have hrep : (planLoop output src pre
              (⟨c0, [], [], []⟩ : LoopState)).1.replay = l3 := by
            simpa using hl3
          rw [show ({ (planLoop output src pre (⟨c0, [], [], []⟩ : LoopState)).1 with
              cache := alistSet (planLoop output src pre
                (⟨c0, [], [], []⟩ : LoopState)).1.cache f
                { hash := h, content := e.content }
              recompute := (planLoop output src pre
                (⟨c0, [], [], []⟩ : LoopState)).1.recompute ++ [f] } : LoopState).replay =
              (planLoop output src pre (⟨c0, [], [], []⟩ : LoopState)).1.replay from rfl,
            hrep] at hmem3
          exact hmem3
        exact hfpre (hmem4 f this)
      · exact hfpost (hmem2 f hmem3)
    · rw [planLoop_cache_untouched output src post _ f hfpost]
      exact alistFind_set_self _ _ _
  · exact reconcile_hash

/-- C5 witness: the theorem applied to a one-file scenario whose cached
fingerprint `3` differs from the current fingerprint `5`, with existing
cache content preserved. -/
theorem claim5_witness :
    alistFind [("a.js", (⟨3, some "old"⟩ : CacheEntry))] "a.js" = some ⟨3, some "old"⟩ ∧
    statFingerprint srcOne "a.js" = some 5 ∧
    ("a.js" ∈ (planLoop "out" srcOne ["a.js"]
        ⟨[("a.js", ⟨3, some "old"⟩)], [], [], []⟩).1.recompute ∧
      "a.js" ∉ (planLoop "out" srcOne ["a.js"]
        ⟨[("a.js", ⟨3, some "old"⟩)], [], [], []⟩).1.replay ∧
      alistFind (planLoop "out" srcOne ["a.js"]
        ⟨[("a.js", ⟨3, some "old"⟩)], [], [], []⟩).1.cache "a.js" =
        some ⟨5, some "old"⟩) ∧
    (alistFind (reconcile "out" [] ["a.js"]
        [("a.js", (⟨5, some "old"⟩ : CacheEntry))]).1 "a.js").map CacheEntry.hash =
      (alistFind [("a.js", (⟨5, some "old"⟩ : CacheEntry))] "a.js").map CacheEntry.hash := by
  refine ⟨by decide, by decide, ?_, ?_⟩
  · exact claim5_fingerprint_overwrite.1 "out" srcOne [] [] "a.js"
      [("a.js", ⟨3, some "old"⟩)] ⟨3, some "old"⟩ 5
      (by intro g hg; simp at hg) (by simp) (by simp) (by decide) (by decide) (by decide)
  · exact claim5_fingerprint_overwrite.2 "out" [] ["a.js"]
      [("a.js", ⟨5, some "old"⟩)] "a.js"

/-! Claim C7. -/

/-- C7: a failing stat mid-loop propagates: the pass aborts with the
`NotFoundError`, the transform invoker never runs, and the cache is
exactly the cache produced by the iterations already completed — entries
updated earlier in the loop are kept, and no identity outside the
processed prefix (in particular not the failing identity nor any later
one) has its entry touched. -/
theorem claim7_stat_failure_frame (tr : SrcFS → List String → List (String × String))
    (output : String) (patterns : List String) (src : SrcFS) (c0 : Cache)
    (pre post : List String) (f : String)
    (hglob : multiGlob patterns (src.map Prod.fst) = pre ++ f :: post)
    (hpre : ∀ g ∈ pre, (statFingerprint src g).isSome = true)
    (hf : statFingerprint src f = none) :
    (writePass tr output patterns src c0).error = some (PassError.notFound f) ∧
    (writePass tr output patterns src c0).invokerCalls = 0 ∧
    (writePass tr output patterns src c0).cache =
      (planLoop output src pre ⟨c0, [], [], []⟩).1.cache ∧
    ∀ g, g ∉ pre → alistFind (writePass tr output patterns src c0).cache g =
      alistFind c0 g := by
  have herr1 : (planLoop output src pre (⟨c0, [], [], []⟩ : LoopState)).2 = none :=
    planLoop_err_none output src pre _ hpre
  have happ := planLoop_append_none output src pre (f :: post) ⟨c0, [], [], []⟩ herr1
  have hhead : planLoop output src (f :: post)
      (planLoop output src pre (⟨c0, [], [], []⟩ : LoopState)).1 =
      ((planLoop output src pre (⟨c0, [], [], []⟩ : LoopState)).1,
        some (PassError.notFound f)) := by
    simp [planLoop, hf]
  have hfull : planLoop output src (multiGlob patterns (src.map Prod.fst))
      (⟨c0, [], [], []⟩ : LoopState) =
      ((planLoop output src pre (⟨c0, [], [], []⟩ : LoopState)).1,
        some (PassError.notFound f)) := by
    rw [hglob, happ, hhead]
  have hw := writePass_eq_of_planLoop_err tr output patterns src c0
    (PassError.notFound f) (by rw [hfull])
  rw [hw]
  refine ⟨rfl, rfl, by rw [hfull], ?_⟩
  intro g hg
  show alistFind (planLoop output src (multiGlob patterns (src.map Prod.fst))
    (⟨c0, [], [], []⟩ : LoopState)).1.cache g = alistFind c0 g
  rw [hfull]
  exact planLoop_cache_untouched output src pre _ g hg

/-- C7 witness: the theorem applied to the scenario whose only enumerated
file vanished before it could be fingerprinted. -/
theorem claim7_witness :
    multiGlob ["*.js"] (srcGone.map Prod.fst) = [] ++ "a.js" :: [] ∧
    statFingerprint srcGone "a.js" = none ∧
    ((writePass trPerFile "out" ["*.js"] srcGone []).error =
        some (PassError.notFound "a.js") ∧
      (writePass trPerFile "out" ["*.js"] srcGone []).invokerCalls = 0 ∧
      (writePass trPerFile "out" ["*.js"] srcGone []).cache =
        (planLoop "out" srcGone [] ⟨[], [], [], []⟩).1.cache ∧
      ∀ g, g ∉ ([] : List String) →
        alistFind (writePass trPerFile "out" ["*.js"] srcGone []).cache g =
          alistFind ([] : Cache) g) := by
  refine ⟨by decide, by decide, ?_⟩
  exact claim7_stat_failure_frame trPerFile "out" ["*.js"] srcGone [] [] [] "a.js"
    (by decide) (by intro g hg; simp at hg) (by decide)

/-! Claim C6. -/

/-- C6: construction succeeds exactly when none of the invalid-argument
conditions of the spec holds — a missing (undefined or null) input tree,
a non-array `inputFiles`, a non-absolute output path, or a formatter that
does not resolve to an object; all failures are raised by the constructor
itself, before any pass runs. -/
theorem claim6_config_validation (t : JSValue) (o : Options) :
    constructOk t o = true ↔ ¬ invalidConfigSpec t o := by
  by_cases h1 : t = JSValue.undefinedV ∨ t = JSValue.nullV
  · have hlhs : constructOk t o = false := by
      unfold constructOk construct
      rw [if_pos h1]
    rw [hlhs]
    constructor
    · intro h; exact Bool.noConfusion h
    · intro h
      refine absurd (show invalidConfigSpec t o from ?_) h
      rcases h1 with h1 | h1
      · exact Or.inl h1
      · exact Or.inr (Or.inl h1)
  · by_cases h2 : isArray o.inputFiles = false
    · have hlhs : constructOk t o = false := by
        unfold constructOk construct
        rw [if_neg h1, if_pos h2]
      rw [hlhs]
      constructor
      · intro h; exact Bool.noConfusion h
      · intro h
        exact absurd (show invalidConfigSpec t o from Or.inr (Or.inr (Or.inl h2))) h
    · cases habs : absoluteOutput o.output with
      | none =>
        have hlhs : constructOk t o = false := by
          unfold constructOk construct
          rw [if_neg h1, if_neg h2, habs]
        rw [hlhs]
        constructor
        · intro h; exact Bool.noConfusion h
        · intro h
          exact absurd
            (show invalidConfigSpec t o from Or.inr (Or.inr (Or.inr (Or.inl habs)))) h
      | some out =>
        cases hfmt : setFormatterResult o.formatter with
        | none =>
          have hlhs : constructOk t o = false := by
            unfold constructOk construct
            rw [if_neg h1, if_neg h2, habs, hfmt]
          rw [hlhs]
          constructor
          · intro h; exact Bool.noConfusion h
          · intro h
            exact absurd
              (show invalidConfigSpec t o from Or.inr (Or.inr (Or.inr (Or.inr hfmt)))) h
        | some fmt =>
          have hlhs : constructOk t o = true := by
            unfold constructOk construct
            rw [if_neg h1, if_neg h2, habs, hfmt]
          rw [hlhs]
          constructor
          · intro _
            intro hbad
            rcases hbad with hb | hb | hb | hb | hb
            · exact h1 (Or.inl hb)
            · exact h1 (Or.inr hb)
            · exact h2 hb
            · rw [habs] at hb; exact Option.noConfusion hb
            · rw [hfmt] at hb; exact Option.noConfusion hb
          · intro _; rfl

/-! Claim C8. -/

/-- C8: the cache is created empty by the constructor, and it grows
monotonically: a pass (whatever its outcome — abort during planning,
reconciliation failure, or success) never removes an entry; every
identity with an entry before the pass still has one after it. -/
theorem claim8_cache_monotone :
    (∀ (t : JSValue) (o : Options) (cfg : Config),
       construct t o = Except.ok cfg → cfg.cache = []) ∧
    (∀ (tr : SrcFS → List String → List (String × String)) (output : String)
       (patterns : List String) (src : SrcFS) (c0 : Cache) (f : String) (e : CacheEntry),
       alistFind c0 f = some e →
       ∃ e2, alistFind (writePass tr output patterns src c0).cache f = some e2) := by
  constructor
  · intro t o cfg h
    unfold construct at h
    split at h
    · exact absurd h (by simp)
    · split at h
      · exact absurd h (by simp)
      · split at h
        · exact absurd h (by simp)
        · split at h
          · exact absurd h (by simp)
          · cases h; rfl
  · intro tr output patterns src c0 f e hfind
    have hsome0 : (alistFind c0 f).isSome = true := by rw [hfind]; rfl
    refine Option.isSome_iff_exists.mp ?_
    cases hplan : (planLoop output src (multiGlob patterns (src.map Prod.fst))
        ⟨c0, [], [], []⟩).2 with
    | some err =>
      rw [writePass_eq_of_planLoop_err tr output patterns src c0 err hplan]
      exact planLoop_cache_mono output src _ _ f hsome0
    | none =>
      rw [writePass_eq_of_planLoop tr output patterns src c0 hplan]
      dsimp only
      rw [reconcile_isSome]
      exact planLoop_cache_mono output src _ _ f hsome0

/-- C8 witness: the construction part applied to valid arguments, and the
monotonicity part applied to the one-entry cache. -/
theorem claim8_witness :
    construct JSValue.objectV ⟨JSValue.arrayV 1, JSValue.strV "/out", JSValue.undefinedV⟩ =
      Except.ok ⟨JSValue.objectV, JSValue.arrayV 1, "/out", JSValue.objectV, []⟩ ∧
    (⟨JSValue.objectV, JSValue.arrayV 1, "/out", JSValue.objectV, []⟩ : Config).cache = [] ∧
    alistFind cacheNoContent "a.js" = some ⟨5, none⟩ ∧
    (∃ e2, alistFind (writePass trNone "out" ["*.js"] srcOne cacheNoContent).cache "a.js" =
      some e2) := by
  refine ⟨rfl, ?_, by decide, ?_⟩
  · exact claim8_cache_monotone.1 JSValue.objectV
      ⟨JSValue.arrayV 1, JSValue.strV "/out", JSValue.undefinedV⟩
      ⟨JSValue.objectV, JSValue.arrayV 1, "/out", JSValue.objectV, []⟩ rfl
  · exact claim8_cache_monotone.2 trNone "out" ["*.js"] srcOne cacheNoContent "a.js"
      ⟨5, none⟩ (by decide)

/-! Claim C9. -/

/-- C9 counterexample: a pass whose planning loop aborts (the enumerated
file vanished before its stat) never invokes the transform, so the bulk
write is not performed on every pass. -/
theorem claim9_counterexample :
    (writePass trPerFile "out" ["*.js"] srcGone []).invokerCalls ≠ 1 ∧
    (writePass trPerFile "out" ["*.js"] srcGone []).invokerCalls = 0 := by
  refine ⟨?_, ?_⟩ <;> decide

/-- C9 (amended): on every pass whose planning loop completes without
error, `container.write` is invoked exactly once, after the loop,
unconditionally — in particular also when the recompute set is empty
because every identity was classified as replay; a pass aborted during
planning never invokes it. -/
theorem claim9_invoker_once (tr : SrcFS → List String → List (String × String))
    (output : String) (patterns : List String) (src : SrcFS) (c0 : Cache)
    (hplan : (planLoop output src (multiGlob patterns (src.map Prod.fst))
      ⟨c0, [], [], []⟩).2 = none) :
    (writePass tr output patterns src c0).invokerCalls = 1 := by
  rw [writePass_eq_of_planLoop tr output patterns src c0 hplan]

/-- C9 witness: a pass classifying its only identity as replay — empty
recompute set — still invokes the transform exactly once. -/
theorem claim9_witness :
    (planLoop "out" srcOne (multiGlob ["*.js"] (srcOne.map Prod.fst))
      ⟨cacheNoContent, [], [], []⟩).2 = none ∧
    (writePass trNone "out" ["*.js"] srcOne cacheNoContent).recompute = [] ∧
    (writePass trNone "out" ["*.js"] srcOne cacheNoContent).invokerCalls = 1 := by
  refine ⟨by decide, by decide, ?_⟩
  exact claim9_invoker_once trNone "out" ["*.js"] srcOne cacheNoContent (by decide)

/-! Claim C10. -/

/-- C10: reconciliation indexes the cache without an existence check:
when planning completed, the pass finishes without error only if every
glob-matched output path has a cache entry, and when it aborts on a path
with no entry the transform outputs are already in the destination (the
invoker having run). -/
theorem claim10_reconcile_unchecked (tr : SrcFS → List String → List (String × String))
    (output : String) (patterns : List String) (src : SrcFS) (c0 : Cache)
    (hplan : (planLoop output src (multiGlob patterns (src.map Prod.fst))
      ⟨c0, [], [], []⟩).2 = none) :
    ((writePass tr output patterns src c0).error = none →
      ∀ p ∈ (writePass tr output patterns src c0).outputFiles,
        (alistFind (planLoop output src (multiGlob patterns (src.map Prod.fst))
          ⟨c0, [], [], []⟩).1.cache p).isSome = true) ∧
    (∀ p, (writePass tr output patterns src c0).error =
        some (PassError.missingEntry p) →
      p ∈ (writePass tr output patterns src c0).outputFiles ∧
      alistFind (writePass tr output patterns src c0).cache p = none ∧
      (writePass tr output patterns src c0).dest =
        writeAll output (tr src (planLoop output src (multiGlob patterns
          (src.map Prod.fst)) ⟨c0, [], [], []⟩).1.recompute)
          (planLoop output src (multiGlob patterns (src.map Prod.fst))
            ⟨c0, [], [], []⟩).1.dest ∧
      (writePass tr output patterns src c0).invokerCalls = 1) := by
  rw [writePass_eq_of_planLoop tr output patterns src c0 hplan]
  dsimp only
  constructor
  · intro herr p hp
    exact ((reconcile_err_none_iff _ _ _ _).mp herr p hp).1
  · intro p herr
    obtain ⟨hmem, hnone⟩ := reconcile_missingEntry _ _ _ _ p herr
    exact ⟨hmem, hnone, rfl, rfl⟩

/-- C10 witness: a transform writing a stray output `b.js` with no cache
entry makes the pass abort on the unchecked index, after the transform
output reached the destination. -/
theorem claim10_witness :
    (planLoop "" srcOne (multiGlob ["*.js"] (srcOne.map Prod.fst))
      ⟨[], [], [], []⟩).2 = none ∧
    (writePass trStray "" ["*.js"] srcOne []).error =
      some (PassError.missingEntry "b.js") ∧
    ("b.js" ∈ (writePass trStray "" ["*.js"] srcOne []).outputFiles ∧
      alistFind (writePass trStray "" ["*.js"] srcOne []).cache "b.js" = none ∧
      (writePass trStray "" ["*.js"] srcOne []).dest =
        writeAll "" (trStray srcOne (planLoop "" srcOne (multiGlob ["*.js"]
          (srcOne.map Prod.fst)) ⟨[], [], [], []⟩).1.recompute)
          (planLoop "" srcOne (multiGlob ["*.js"] (srcOne.map Prod.fst))
            ⟨[], [], [], []⟩).1.dest ∧
      (writePass trStray "" ["*.js"] srcOne []).invokerCalls = 1) := by
  refine ⟨by decide, by decide, ?_⟩
  exact (claim10_reconcile_unchecked trStray "" ["*.js"] srcOne [] (by decide)).2
    "b.js" (by decide)

/-! Claim C2. -/

/-- C2 counterexample: with output subpath `out`, the recomputed identity
`a.js` has its transform output present at its destination path
`out/a.js`, yet reconciliation sets content for nobody (the read-back
glob over the destination directory matches nothing), leaving the entry
content-less. -/
theorem claim2_counterexample :
    (writePass trShifted "out" ["*.js"] srcOne []).error = none ∧
    (writePass trShifted "out" ["*.js"] srcOne []).recompute = ["a.js"] ∧
    alistFind (writePass trShifted "out" ["*.js"] srcOne []).dest
      (joinPath "out" "a.js") = some "T" ∧
    (writePass trShifted "out" ["*.js"] srcOne []).contentSet = [] ∧
    alistFind (writePass trShifted "out" ["*.js"] srcOne []).cache "a.js" =
      some ⟨5, none⟩ := by
  refine ⟨?_, ?_, ?_, ?_, ?_⟩ <;> decide

/-- C2 (amended): after an error-free pass, the reconciler sets cached
content exactly for the identities matched by re-globbing the input
patterns over the destination directory — each matched identity's entry
holds content equal to the bytes at its output path, and the entry of
every unmatched identity (recomputed or not) is left exactly as the
planning loop produced it. -/
theorem claim2_reconcile_by_glob (tr : SrcFS → List String → List (String × String))
    (output : String) (patterns : List String) (src : SrcFS) (c0 : Cache)
    (herr : (writePass tr output patterns src c0).error = none) :
    (writePass tr output patterns src c0).contentSet =
      (writePass tr output patterns src c0).outputFiles ∧
    (∀ p ∈ (writePass tr output patterns src c0).outputFiles,
      ∃ e, alistFind (writePass tr output patterns src c0).cache p = some e ∧
        e.content = alistFind (writePass tr output patterns src c0).dest
          (joinPath output p)) ∧
    (∀ f, f ∉ (writePass tr output patterns src c0).outputFiles →
      alistFind (writePass tr output patterns src c0).cache f =
        alistFind (planLoop output src (multiGlob patterns (src.map Prod.fst))
          ⟨c0, [], [], []⟩).1.cache f) := by
  cases hplan : (planLoop output src (multiGlob patterns (src.map Prod.fst))
      ⟨c0, [], [], []⟩).2 with
  | some e =>
    rw [writePass_eq_of_planLoop_err tr output patterns src c0 e hplan] at herr
    exact absurd herr (by simp)
  | none =>
    rw [writePass_eq_of_planLoop tr output patterns src c0 hplan] at herr ⊢
    dsimp only at herr ⊢
    refine ⟨reconcile_contentSet_of_none _ _ _ _ herr, ?_, ?_⟩
    · exact reconcile_content_values _ _ _ _ (nodup_multiGlob _ _) herr
    · intro f hf
      exact reconcile_untouched _ _ _ _ f hf

/-- C2 witness: the amended theorem applied to the per-file transform with
empty output subpath, where the read-back glob does match the output. -/
theorem claim2_witness :
    (writePass trPerFile "" ["*.js"] srcOne []).error = none ∧
    (writePass trPerFile "" ["*.js"] srcOne []).contentSet =
      (writePass trPerFile "" ["*.js"] srcOne []).outputFiles := by
  refine ⟨by decide, ?_⟩
  exact (claim2_reconcile_by_glob trPerFile "" ["*.js"] srcOne [] (by decide)).1

/-! Claim C3. -/

/-- Second pass over an unchanged source tree: if the cache holds, for
every enumerated identity, an entry with the current fingerprint and
content equal to the bytes the previous destination held at its output
path, if the previous destination held nothing else, if the previous
reconciliation facts hold (every glob-matched previous output path has a
cache entry and a readable file), and if the invoker writes nothing for
an empty recompute set, then the pass classifies every identity as
replay, none as recompute, completes without error, and reproduces the
previous destination byte for byte. -/
theorem secondPass_all_replay (tr : SrcFS → List String → List (String × String))
    (output : String) (patterns : List String) (src : SrcFS) (C1 : Cache) (D1 : Dest)
    (h2 : tr src [] = [])
    (hall : ∀ f ∈ multiGlob patterns (src.map Prod.fst), ∃ fp e,
      statFingerprint src f = some fp ∧ alistFind C1 f = some e ∧ e.hash = fp ∧
      ∃ c, e.content = some c ∧ alistFind D1 (joinPath output f) = some c)
    (hdom : ∀ p, (alistFind D1 p).isSome = true →
      ∃ f ∈ multiGlob patterns (src.map Prod.fst), p = joinPath output f)
    (hrec1 : ∀ p ∈ multiGlob patterns (D1.map Prod.fst),
      (alistFind C1 p).isSome = true ∧
        (alistFind D1 (joinPath output p)).isSome = true) :
    (writePass tr output patterns src C1).error = none ∧
    (writePass tr output patterns src C1).replay =
      multiGlob patterns (src.map Prod.fst) ∧
    (writePass tr output patterns src C1).recompute = [] ∧
    ∀ p, alistFind (writePass tr output patterns src C1).dest p = alistFind D1 p := by
  have hallw : ∀ f ∈ multiGlob patterns (src.map Prod.fst), ∃ fp e,
      statFingerprint src f = some fp ∧
      alistFind (⟨C1, [], [], []⟩ : LoopState).cache f = some e ∧ e.hash = fp := by
    intro f hf
    obtain ⟨fp, e, hstat, hfind, hhash, _⟩ := hall f hf
    exact ⟨fp, e, hstat, hfind, hhash⟩
  obtain ⟨hp2err, hp2cache, hp2rec, hp2replay, hp2dest⟩ :=
    planLoop_all_replay output src (multiGlob patterns (src.map Prod.fst))
      ⟨C1, [], [], []⟩ hallw
  have hD2 : writeAll output (tr src (planLoop output src
      (multiGlob patterns (src.map Prod.fst)) ⟨C1, [], [], []⟩).1.recompute)
      (planLoop output src (multiGlob patterns (src.map Prod.fst))
        ⟨C1, [], [], []⟩).1.dest =
      (planLoop output src (multiGlob patterns (src.map Prod.fst))
        ⟨C1, [], [], []⟩).1.dest := by
    rw [hp2rec]
    dsimp only
    rw [h2]
    rfl
  have hdest2 : ∀ p, alistFind (planLoop output src
      (multiGlob patterns (src.map Prod.fst)) ⟨C1, [], [], []⟩).1.dest p =
      alistFind D1 p := by
    intro p
    by_cases hp : ∃ f, f ∈ multiGlob patterns (src.map Prod.fst) ∧ p = joinPath output f
    · obtain ⟨f, hfI, rfl⟩ := hp
      obtain ⟨e, hfindC1, hdval⟩ := hp2dest f hfI
      obtain ⟨fp, e1, hstat, hfindC1b, hhash, c, hcont, hD1⟩ := hall f hfI
      have he : e = e1 := Option.some.inj (hfindC1.symm.trans hfindC1b)
      subst he
      rw [hdval, hD1, hcont]
      rfl
    · have hframe := planLoop_dest_frame output src
        (multiGlob patterns (src.map Prod.fst)) ⟨C1, [], [], []⟩ p
        (fun g hg hpg => hp ⟨g, hg, hpg⟩)
      rw [hframe]
      have hD1none : alistFind D1 p = none := by
        cases hcase : alistFind D1 p with
        | none => rfl
        | some v =>
          exact absurd (hdom p (by rw [hcase]; rfl)) hp
      rw [hD1none]
      rfl
  have hOF2mem : ∀ p, p ∈ multiGlob patterns ((planLoop output src
      (multiGlob patterns (src.map Prod.fst)) ⟨C1, [], [], []⟩).1.dest.map Prod.fst) ↔
      p ∈ multiGlob patterns (D1.map Prod.fst) := by
    intro p
    rw [mem_multiGlob, mem_multiGlob]
    constructor
    · rintro ⟨hmem, hmatch⟩
      refine ⟨?_, hmatch⟩
      rw [← alistFind_isSome_iff_mem] at hmem ⊢
      rw [← hdest2 p]
      exact hmem
    · rintro ⟨hmem, hmatch⟩
      refine ⟨?_, hmatch⟩
      rw [← alistFind_isSome_iff_mem] at hmem ⊢
      rw [hdest2 p]
      exact hmem
  have hrec2 : (reconcile output (planLoop output src
      (multiGlob patterns (src.map Prod.fst)) ⟨C1, [], [], []⟩).1.dest
      (multiGlob patterns ((planLoop output src
        (multiGlob patterns (src.map Prod.fst)) ⟨C1, [], [], []⟩).1.dest.map Prod.fst))
      (planLoop output src (multiGlob patterns (src.map Prod.fst))
        ⟨C1, [], [], []⟩).1.cache).2.2 = none := by
    rw [reconcile_err_none_iff]
    intro p hp
    obtain ⟨ha, hb⟩ := hrec1 p ((hOF2mem p).mp hp)
    constructor
    · rw [hp2cache]
      exact ha
    · rw [hdest2 (joinPath output p)]
      exact hb
  rw [writePass_eq_of_planLoop tr output patterns src C1 hp2err]
  dsimp only
  refine ⟨?_, ?_, ?_, ?_⟩
  · rw [hD2]
    exact hrec2
  · rw [hp2replay]
    rfl
  · exact hp2rec
  · intro p
    rw [hD2]
    exact hdest2 p

/-- C3 counterexample: with output subpath `out` (so the read-back glob
captures no content), two consecutive passes over the unchanged source
both succeed and the second one is indeed all-replay — but the
destination bytes differ: the transform wrote `"T"` at `out/a.js` in the
first pass, while the second pass replays the absent cached content as
the placeholder `"undefined"`. -/
theorem claim3_counterexample :
    (writePass trShifted "out" ["*.js"] srcOne []).error = none ∧
    (writePass trShifted "out" ["*.js"] srcOne
      (writePass trShifted "out" ["*.js"] srcOne []).cache).error = none ∧
    (writePass trShifted "out" ["*.js"] srcOne
      (writePass trShifted "out" ["*.js"] srcOne []).cache).replay = ["a.js"] ∧
    (writePass trShifted "out" ["*.js"] srcOne
      (writePass trShifted "out" ["*.js"] srcOne []).cache).recompute = [] ∧
    alistFind (writePass trShifted "out" ["*.js"] srcOne []).dest "out/a.js" =
      some "T" ∧
    alistFind (writePass trShifted "out" ["*.js"] srcOne
      (writePass trShifted "out" ["*.js"] srcOne []).cache).dest "out/a.js" =
      some "undefined" := by
  refine ⟨?_, ?_, ?_, ?_, ?_, ?_⟩ <;> decide

/-- C3 (amended): two consecutive passes with no filesystem change yield
a second pass classifying every enumerated identity as replay and none as
recompute, with destination bytes equal to the first pass's — provided
the first pass succeeded, the first pass's reconciliation populated every
enumerated identity's cached content with exactly the bytes at its
destination path, the first destination holds no other paths, and the
invoker writes nothing for an empty recompute set. Without the
reconciliation-coverage proviso the destination bytes can differ (see the
counterexample). -/
theorem claim3_idempotence (tr : SrcFS → List String → List (String × String))
    (output : String) (patterns : List String) (src : SrcFS) (c0 : Cache)
    (h1 : (writePass tr output patterns src c0).error = none)
    (h2 : tr src [] = [])
    (h3 : ∀ f ∈ multiGlob patterns (src.map Prod.fst), ∃ c,
      (alistFind (writePass tr output patterns src c0).cache f).bind
        CacheEntry.content = some c ∧
      alistFind (writePass tr output patterns src c0).dest (joinPath output f) = some c)
    (h4 : ∀ p, (alistFind (writePass tr output patterns src c0).dest p).isSome = true →
      ∃ f ∈ multiGlob patterns (src.map Prod.fst), p = joinPath output f) :
    (writePass tr output patterns src
      (writePass tr output patterns src c0).cache).error = none ∧
    (writePass tr output patterns src
      (writePass tr output patterns src c0).cache).replay =
      multiGlob patterns (src.map Prod.fst) ∧
    (writePass tr output patterns src
      (writePass tr output patterns src c0).cache).recompute = [] ∧
    ∀ p, alistFind (writePass tr output patterns src
        (writePass tr output patterns src c0).cache).dest p =
      alistFind (writePass tr output patterns src c0).dest p := by
  cases hplan : (planLoop output src (multiGlob patterns (src.map Prod.fst))
      ⟨c0, [], [], []⟩).2 with
  | some e =>
    rw [writePass_eq_of_planLoop_err tr output patterns src c0 e hplan] at h1
    exact absurd h1 (by simp)
  | none =>
    rw [writePass_eq_of_planLoop tr output patterns src c0 hplan] at h1 h3 h4 ⊢
    dsimp only at h1 h3 h4 ⊢
    have hentry1 := planLoop_entry_hash output src
      (multiGlob patterns (src.map Prod.fst)) ⟨c0, [], [], []⟩
      (nodup_multiGlob patterns (src.map Prod.fst)) hplan
    have hrecOK := (reconcile_err_none_iff output
      (writeAll output (tr src (planLoop output src (multiGlob patterns
        (src.map Prod.fst)) ⟨c0, [], [], []⟩).1.recompute)
        (planLoop output src (multiGlob patterns (src.map Prod.fst))
          ⟨c0, [], [], []⟩).1.dest)
      (multiGlob patterns ((writeAll output (tr src (planLoop output src
        (multiGlob patterns (src.map Prod.fst)) ⟨c0, [], [], []⟩).1.recompute)
        (planLoop output src (multiGlob patterns (src.map Prod.fst))
          ⟨c0, [], [], []⟩).1.dest).map Prod.fst))
      (planLoop output src (multiGlob patterns (src.map Prod.fst))
        ⟨c0, [], [], []⟩).1.cache).mp h1
    refine secondPass_all_replay tr output patterns src _ _ h2 ?_ h4 ?_
    · intro f hf
      obtain ⟨fp, e, hstat, hfindPC, hhash⟩ := hentry1 f hf
      obtain ⟨c, hbind, hD1⟩ := h3 f hf
      obtain ⟨e1, hfind1, hcont1⟩ := Option.bind_eq_some.mp hbind
      have hhash1 : e1.hash = fp := by
        have hpres := reconcile_hash output
          (writeAll output (tr src (planLoop output src (multiGlob patterns
            (src.map Prod.fst)) ⟨c0, [], [], []⟩).1.recompute)
            (planLoop output src (multiGlob patterns (src.map Prod.fst))
              ⟨c0, [], [], []⟩).1.dest)
          (multiGlob patterns ((writeAll output (tr src (planLoop output src
            (multiGlob patterns (src.map Prod.fst)) ⟨c0, [], [], []⟩).1.recompute)
            (planLoop output src (multiGlob patterns (src.map Prod.fst))
              ⟨c0, [], [], []⟩).1.dest).map Prod.fst))
          (planLoop output src (multiGlob patterns (src.map Prod.fst))
            ⟨c0, [], [], []⟩).1.cache f
        rw [hfind1, hfindPC] at hpres
        simpa [hhash] using Option.some.inj hpres
      exact ⟨fp, e1, hstat, hfind1, hhash1, c, hcont1, hD1⟩
    · intro p hp
      obtain ⟨ha, hb⟩ := hrecOK p hp
      refine ⟨?_, hb⟩
      rw [reconcile_isSome]
      exact ha

/-- C3 witness: the amended theorem applied to the per-file transform
with empty output subpath, where reconciliation covered the only input
file; the second pass is all-replay, error-free, and byte-identical. -/
theorem claim3_witness :
    (writePass trPerFile "" ["*.js"] srcOne []).error = none ∧
    trPerFile srcOne [] = [] ∧
    ((writePass trPerFile "" ["*.js"] srcOne
        (writePass trPerFile "" ["*.js"] srcOne []).cache).error = none ∧
      (writePass trPerFile "" ["*.js"] srcOne
        (writePass trPerFile "" ["*.js"] srcOne []).cache).replay =
        multiGlob ["*.js"] (srcOne.map Prod.fst) ∧
      (writePass trPerFile "" ["*.js"] srcOne
        (writePass trPerFile "" ["*.js"] srcOne []).cache).recompute = []) := by
  refine ⟨by decide, by decide, ?_⟩
  have hmg : multiGlob ["*.js"] (srcOne.map Prod.fst) = ["a.js"] := by decide
  have hdest : (writePass trPerFile "" ["*.js"] srcOne []).dest = [("a.js", "T")] := by
    decide
  have h := claim3_idempotence trPerFile "" ["*.js"] srcOne [] (by decide) (by decide)
    (by
      intro f hf
      rw [hmg] at hf
      rcases List.mem_singleton.mp hf with rfl
      exact ⟨"T", by decide, by decide⟩)
    (by
      intro p hp
      rw [hdest] at hp
      by_cases hpa : "a.js" = p
      · subst hpa
        exact ⟨"a.js", by rw [hmg]; exact List.mem_singleton.mpr rfl, rfl⟩
      · rw [show alistFind [("a.js", "T")] p = none from by
          simp [alistFind, hpa]] at hp
        exact absurd hp (by simp))
  exact ⟨h.1, h.2.1, h.2.2.1⟩

end BroccoliCompileModules
